import Mathlib

/-!
Verification development for the nutanix-exporter repository.

The Go sources are shallowly embedded: decoded JSON documents
(`map[string]interface{}` and friends) become the inductive `Json`;
Go maps become association lists with unique keys and last-write-wins
assignment (`upsert`); fallible code returns `Except`/`Option`; a Go
runtime panic (a failed single-value type assertion) is a distinct
outcome constructor.  Numbers are modelled as exact rationals: every
behaviour the checked claims exercise (string coercion, gauge naming,
discovery parsing) is value-exact on the inputs involved.
-/

namespace NutanixExporter

/-- A decoded JSON value, as produced by `encoding/json` into
`map[string]interface{}`: `null`, booleans, numbers (Go `float64`,
modelled exactly as rationals), strings, arrays and objects. -/
inductive Json where
  | null
  | bool (b : Bool)
  | num (q : ℚ)
  | str (s : String)
  | arr (xs : List Json)
  | obj (fields : List (String × Json))

/-- Go map indexing `m[k]`: `some v` when the key is present, `none`
when absent (Go returns the zero value `nil`, which then fails any
type assertion). Go maps have unique keys, so first-match lookup is
exact. -/
def jLookup (fields : List (String × Json)) (k : String) : Option Json :=
  match fields with
  | [] => none
  | (k', v) :: rest => if k' = k then some v else jLookup rest k

/-- Whether a value is a Go `map[string]interface{}` (a JSON object). -/
def isObjB : Json → Bool
  | .obj _ => true
  | _ => false

/-- Go map assignment `m[k] = v`: replaces the binding when the key is
present, otherwise appends it. -/
def upsert (m : List (String × Json)) (k : String) (v : Json) : List (String × Json) :=
  match m with
  | [] => [(k, v)]
  | (k', v') :: rest => if k' = k then (k, v) :: rest else (k', v') :: upsert rest k v

/-- The Go loop `for k, v := range src { dst[k] = v }` used to merge a
recursive `flattenMap` result into the caller's map. -/
def mergeInto (acc : List (String × Json)) (entries : List (String × Json)) :
    List (String × Json) :=
  match entries with
  | [] => acc
  | (k, v) :: rest => mergeInto (upsert acc k v) rest

/-- Digit run to a natural number. -/
def digitsToNat (ds : List Char) : Nat :=
  ds.foldl (fun acc c => acc * 10 + (c.toNat - '0'.toNat)) 0

/-- Split a character list into its leading digit run and the rest. -/
def takeDigits : List Char → List Char × List Char
  | [] => ([], [])
  | c :: cs =>
    if c.isDigit then
      let (ds, r) := takeDigits cs
      (c :: ds, r)
    else ([], c :: cs)

/-- Model of `strconv.ParseFloat` on the plain decimal fragment:
optional sign, digits with an optional fractional part (at least one
digit overall), and an optional `e`/`E` exponent.  Hexadecimal floats,
`inf`/`nan` spellings and digit separators are outside the modelled
fragment; none of the checked claims involve them. -/
def parseDecimal (s : String) : Option ℚ :=
  let cs := s.toList
  let (sgn, cs1) : ℚ × List Char :=
    match cs with
    | '+' :: t => (1, t)
    | '-' :: t => (-1, t)
    | _ => (1, cs)
  let (intPart, cs2) := takeDigits cs1
  let (fracPart, cs3) :=
    match cs2 with
    | '.' :: t => takeDigits t
    | _ => ([], cs2)
  if intPart.isEmpty ∧ fracPart.isEmpty then none
  else
    let mant : ℚ := (digitsToNat intPart : ℚ) +
      (digitsToNat fracPart : ℚ) / ((10 : ℚ) ^ fracPart.length)
    match cs3 with
    | [] => some (sgn * mant)
    | 'e' :: t =>
      let (esgn, t1) : ℤ × List Char :=
        match t with
        | '+' :: u => (1, u)
        | '-' :: u => (-1, u)
        | _ => (1, t)
      let (eds, t2) := takeDigits t1
      if eds.isEmpty ∨ ¬ t2.isEmpty then none
      else some (sgn * mant * (10 : ℚ) ^ (esgn * (digitsToNat eds : ℤ)))
    | 'E' :: t =>
      let (esgn, t1) : ℤ × List Char :=
        match t with
        | '+' :: u => (1, u)
        | '-' :: u => (-1, u)
        | _ => (1, t)
      let (eds, t2) := takeDigits t1
      if eds.isEmpty ∨ ¬ t2.isEmpty then none
      else some (sgn * mant * (10 : ℚ) ^ (esgn * (digitsToNat eds : ℤ)))
    | _ => none

/-- `Exporter.valueToFloat64` (internal/prom exporter base, current
version): a `float64` is returned as-is; the string `"on"` is 1;
`"off"` or `"OFF"` is 0; any other string is given to
`strconv.ParseFloat` and its value is used on success; everything else
(parse failure, other runtime types) falls through to 0. -/
def valueToFloat64 (value : Json) : ℚ :=
  match value with
  | .num v => v
  | .str v =>
    if v = "on" then 1
    else if v = "off" ∨ v = "OFF" then 0
    else
      match parseDecimal v with
      | some f => f
      | none => 0
  | _ => 0

/-- `Exporter.valueToFloat64`, earlier revision: identical except that
only the exact spelling `"off"` is special-cased (no `"OFF"` branch). -/
def valueToFloat64V0 (value : Json) : ℚ :=
  match value with
  | .num v => v
  | .str v =>
    if v = "on" then 1
    else if v = "off" then 0
    else
      match parseDecimal v with
      | some f => f
      | none => 0
  | _ => 0

/-- `Exporter.normalizeKey`: replace `.`, `-` and `:` by `_`, then
lower-case (character-wise, as `strings.NewReplacer` followed by
`strings.ToLower`). -/
def normalizeKey (key : String) : String :=
  String.mk ((key.toList.map fun c =>
    if c = '.' ∨ c = '-' ∨ c = ':' then '_' else c).map Char.toLower)

/-- `Exporter.flattenMap` (worker with the accumulating outer map):
for each field, the flat key is the field name, or `pfx + "_" + name`
under a non-empty prefix string; a nested object is flattened
recursively into a fresh map whose entries are then merged into the
outer map; any other value is stored directly. -/
def flattenMapAux (pfx : String) (acc : List (String × Json)) :
    List (String × Json) → List (String × Json)
  | [] => acc
  | (k, v) :: rest =>
    let flatKey := if pfx = "" then k else pfx ++ "_" ++ k
    match v with
    | .obj nested => flattenMapAux pfx (mergeInto acc (flattenMapAux flatKey [] nested)) rest
    | _ => flattenMapAux pfx (upsert acc flatKey v) rest
termination_by fields => sizeOf fields
decreasing_by
  all_goals simp only [List.cons.sizeOf_spec, Prod.mk.sizeOf_spec, Json.obj.sizeOf_spec]
  all_goals omega

/-- `Exporter.flattenMap`: flatten a nested document into a flat map
with underscore-joined keys. -/
def flattenMap (pfx : String) (nestedMap : List (String × Json)) : List (String × Json) :=
  flattenMapAux pfx [] nestedMap

/-! ### Credential-aware client and the staleness state machine -/

/-- The mutable credential fields of a `PEClient`/`PCClient`: the
bound base URL and the current basic-auth pair. -/
structure Client where
  URL : String
  Username : String
  Password : String
deriving DecidableEq, Repr

/-- `PEClient.RefreshCredentials`: re-fetch the pair from the provider
keyed by the client's `URL`; an empty username or secret is an error
and leaves the client untouched. -/
def refreshPE (getPECreds : String → String × String) (c : Client) : Except Unit Client :=
  let (username, password) := getPECreds c.URL
  if username = "" ∨ password = "" then .error ()
  else .ok { c with Username := username, Password := password }

/-- `PCClient.RefreshCredentials`: same as `refreshPE` but against the
Prism Central credential entry, still keyed by the client's `URL`. -/
def refreshPC (getPCCreds : String → String × String) (c : Client) : Except Unit Client :=
  let (username, password) := getPCCreds c.URL
  if username = "" ∨ password = "" then .error ()
  else .ok { c with Username := username, Password := password }

/-- `nutanix.NewCluster`, credential part: the initial pair is fetched
keyed by the cluster's `name` (`GetPCCreds(name)` when `isPC`, else
`GetPECreds(name)`); an empty component makes construction fail
(`nil`).  The client is bound to `url`. -/
def NewClusterClient (getCreds : String → String × String) (name url : String) :
    Option Client :=
  let (username, password) := getCreds name
  if username = "" ∨ password = "" then none
  else some { URL := url, Username := username, Password := password }

/-- `Cluster.RefreshCredentialsIfNeeded` under the cluster's lock:
when the refresh-needed flag is set, run the client's refresh; on
error keep the flag and the old client, on success install the new
client and clear the flag.  When the flag is clear, do nothing. -/
def RefreshCredentialsIfNeeded (refreshFn : Client → Except Unit Client)
    (refreshNeeded : Bool) (c : Client) : Bool × Client :=
  if refreshNeeded then
    match refreshFn c with
    | .error _ => (true, c)
    | .ok c' => (false, c')
  else (refreshNeeded, c)

/-- An HTTP response as far as `fetchData` inspects it: the status
code and the decoded body (`none` when the body fails to decode as a
JSON object). -/
structure HttpResp where
  status : Nat
  body : Option (List (String × Json))

/-- The distinct error outcomes of `Exporter.fetchData`. -/
inductive FetchErr where
  | knownStale
  | transport
  | authFailed
  | requestFailed (status : Nat)
  | decodeFailed
deriving DecidableEq, Repr

/-- The observable outcome of one `Exporter.fetchData` call: the
cluster's refresh-needed flag afterwards, whether the HTTP request was
issued at all, and the result. -/
structure FetchOutcome where
  flagAfter : Bool
  requested : Bool
  result : Except FetchErr (List (String × Json))

/-- The locked marking section of `fetchData` on a 401/403: under the
mutex, set the refresh-needed flag only when it is not already set.
Returns the new flag and whether this observer actually flipped it
(the guarded log-and-set branch ran). -/
def markStale (flag : Bool) : Bool × Bool :=
  if flag then (true, false) else (true, true)

/-- `Exporter.fetchData`: fail fast with a known-stale error (no
request) when the refresh-needed flag is already set; otherwise issue
the GET; a 401/403 marks the credentials stale via `markStale` and
returns the authentication error; any other non-2xx status is the
generic request failure; an undecodable body is a decode error. -/
def fetchData (refreshNeeded : Bool) (resp : Except Unit HttpResp) : FetchOutcome :=
  if refreshNeeded then
    { flagAfter := refreshNeeded, requested := false, result := .error .knownStale }
  else
    match resp with
    | .error _ => { flagAfter := refreshNeeded, requested := true, result := .error .transport }
    | .ok r =>
      if r.status = 403 ∨ r.status = 401 then
        { flagAfter := (markStale refreshNeeded).1, requested := true,
          result := .error .authFailed }
      else if r.status < 200 ∨ 300 ≤ r.status then
        { flagAfter := refreshNeeded, requested := true,
          result := .error (.requestFailed r.status) }
      else
        match r.body with
        | none => { flagAfter := refreshNeeded, requested := true, result := .error .decodeFailed }
        | some doc => { flagAfter := refreshNeeded, requested := true, result := .ok doc }

/-! ### Cluster discovery (`FetchClusters` and its per-version parsers)

Go type assertions appear in two forms in the parsers: the two-value
form `x, ok := v.(T)` never panics (a failure drives a `continue`),
while the single-value form `v.(T)` panics at runtime when `v` is not
a `T` — including when `v` is the `nil` returned by indexing a missing
map key.  A panic aborts the whole call, so it is modelled as a
distinct outcome that swallows every other entry. -/

/-- What parsing one element of the v4 `data` / v3 `entities` list
does: contribute a `(name, ip)` pair, be skipped, or panic. -/
inductive EntryStep where
  | keep (name ip : String)
  | skip
  | panicked
deriving DecidableEq, Repr

/-- Result of a whole per-version parse: the normalized `(name, ip)`
list, the `unexpected response format` error (top-level key missing or
not a list), or a runtime panic raised while handling some entry. -/
inductive ParseOutcome where
  | ok (clusters : List (String × String))
  | formatErr
  | panicked
deriving DecidableEq, Repr

/-- One v4 entry (`parseV4Clusters` loop body).  `cluster.(map[...])`
is single-value, so a non-object entry panics; `name` uses the
two-value form (missing/non-string or `"Unnamed"` skips);
`clusterMap["network"].(map[...])` is single-value (panic), its
`["externalAddress"]` assertion two-value (skip);
`network["ipv4"].(map[...])` is single-value (panic), its `["value"]`
string assertion two-value (skip). -/
def parseV4Entry (entry : Json) : EntryStep :=
  match entry with
  | .obj clusterMap =>
    match jLookup clusterMap "name" with
    | some (.str name) =>
      if name = "Unnamed" then .skip
      else
        match jLookup clusterMap "network" with
        | some (.obj networkMap) =>
          match jLookup networkMap "externalAddress" with
          | some (.obj network) =>
            match jLookup network "ipv4" with
            | some (.obj ipv4Map) =>
              match jLookup ipv4Map "value" with
              | some (.str ip) => .keep name ip
              | _ => .skip
            | _ => .panicked
          | _ => .skip
        | _ => .panicked
    | _ => .skip
  | _ => .panicked

/-- One v3 entry (`parseV3Clusters` loop body).  `entity.(map[...])`
is single-value (panic); `spec`/`status` use the two-value form
(skip); `name` two-value plus the `"Unnamed"` skip;
`status["resources"].(map[...])` is single-value (panic), its
`["network"]` assertion two-value (skip); `external_ip` two-value
(skip). -/
def parseV3Entry (entry : Json) : EntryStep :=
  match entry with
  | .obj cluster =>
    match jLookup cluster "spec", jLookup cluster "status" with
    | some (.obj specMap), some (.obj statusMap) =>
      match jLookup specMap "name" with
      | some (.str name) =>
        if name = "Unnamed" then .skip
        else
          match jLookup statusMap "resources" with
          | some (.obj resources) =>
            match jLookup resources "network" with
            | some (.obj network) =>
              match jLookup network "external_ip" with
              | some (.str ip) => .keep name ip
              | _ => .skip
            | _ => .skip
          | _ => .panicked
      | _ => .skip
    | _, _ => .skip
  | _ => .panicked

/-- Run the per-entry step over the decoded list, accumulating kept
pairs; a panic in any entry aborts the whole loop. -/
def runEntries (step : Json → EntryStep) (entries : List Json)
    (acc : List (String × String)) : ParseOutcome :=
  match entries with
  | [] => .ok acc
  | e :: rest =>
    match step e with
    | .keep name ip => runEntries step rest (acc ++ [(name, ip)])
    | .skip => runEntries step rest acc
    | .panicked => .panicked

/-- `parseV4Clusters`: `result["data"]` must be a list (two-value
assertion, else the v4 format error), then each element is parsed by
`parseV4Entry`. -/
def parseV4Clusters (result : List (String × Json)) : ParseOutcome :=
  match jLookup result "data" with
  | some (.arr data) => runEntries parseV4Entry data []
  | _ => .formatErr

/-- `parseV3Clusters`: `result["entities"]` must be a list (two-value
assertion, else the v3 format error), then each element is parsed by
`parseV3Entry`. -/
def parseV3Clusters (result : List (String × Json)) : ParseOutcome :=
  match jLookup result "entities" with
  | some (.arr entities) => runEntries parseV3Entry entities []
  | _ => .formatErr

/-- String-valued Go map assignment, for the final
`clusterData[name] = url`. -/
def upsertS (m : List (String × String)) (k v : String) : List (String × String) :=
  match m with
  | [] => [(k, v)]
  | (k', v') :: rest => if k' = k then (k, v) :: rest else (k', v') :: upsertS rest k v

/-- The final loop of `FetchClusters`, shared by both versions: for
each parsed `(name, ip)` pair, skip it when a non-empty prefix filter
is configured and the name does not start with it, otherwise bind
`name` to `https://{ip}:9440` in the cluster-data map. -/
def buildClusterData (clusters : List (String × String)) (clusterPfx : String) :
    List (String × String) :=
  clusters.foldl
    (fun acc c =>
      if clusterPfx ≠ "" ∧ ¬ c.1.startsWith clusterPfx then acc
      else upsertS acc c.1 ("https://" ++ c.2 ++ ":9440"))
    []

/-- The pure core of `FetchClusters` once the HTTP response has been
decoded into a top-level object: pick the per-version parser (`"v3"`
selects v3, anything else v4) and post-process its output. -/
def fetchClustersCore (version : String) (decoded : List (String × Json))
    (clusterPfx : String) : ParseOutcome :=
  let parsed := if version = "v3" then parseV3Clusters decoded else parseV4Clusters decoded
  match parsed with
  | .ok clusters => .ok (buildClusterData clusters clusterPfx)
  | other => other

/-! ### Discovery scheduler route table (`updateHTTPHandlers`)

The table is modelled as an association list from route path to the
identity of the handler registered for it (standing for the closure
over the `Cluster` object); presence of a key is exactly the
`registeredRoutes[route]` marker. -/

/-- The route path for a cluster name. -/
def routeOf (name : String) : String := "/metrics/" ++ name

/-- Route-table lookup (the `registeredRoutes[route]` read; `some`
also carries which handler serves the route). -/
def routeLookup (table : List (String × Nat)) (r : String) : Option Nat :=
  match table with
  | [] => none
  | (r', h) :: rest => if r' = r then some h else routeLookup rest r

/-- `updateHTTPHandlers`: for each `(name, cluster)` in the discovery
result, register a handler for `/metrics/{name}` only when that route
is not yet marked registered, then mark it; already-registered routes
are left untouched. -/
def updateHTTPHandlers (table : List (String × Nat)) (clusterMap : List (String × Nat)) :
    List (String × Nat) :=
  clusterMap.foldl
    (fun t c =>
      match routeLookup t (routeOf c.1) with
      | some _ => t
      | none => t ++ [(routeOf c.1, c.2)])
    table

/-! ### Entity collectors (`updateMetrics` variants)

A collector run is modelled by the ordered list of gauge writes it
performs; each write is a `Sample`.  The allow-list `allow` is the key
set of the collector's `Metrics` map (loaded by `initMetrics` from the
metric definitions); `g.WithLabelValues(...).Set(...)` becomes
appending a `Sample`. -/

/-- One gauge write: the (normalized) metric name looked up in
`Metrics`, the label values, and the coerced numeric value. -/
structure Sample where
  metric : String
  labels : List String
  value : ℚ
deriving DecidableEq, Repr

/-- The Go two-value string assertion with a discarded `ok`
(`name, _ := ent["name"].(string)`): the zero value `""` when the
field is missing or not a string. -/
def goStringAssert (v : Option Json) : String :=
  match v with
  | some (.str s) => s
  | _ => ""

/-- `StorageContainerExporter.updateMetrics`: over `entities`, for
each object entry take its `name` (zero value on failure) and iterate
only the immediate fields of its `usage_stats` sub-object; allow-listed
normalized keys are written with labels `(cluster, container)`. -/
def storageUpdateMetrics (clusterName : String) (allow : List String)
    (data : List (String × Json)) : List Sample :=
  match jLookup data "entities" with
  | some (.arr entities) =>
    entities.foldl
      (fun acc entity =>
        match entity with
        | .obj ent =>
          match jLookup ent "usage_stats" with
          | some (.obj usageStats) =>
            usageStats.foldl
              (fun a kv =>
                if normalizeKey kv.1 ∈ allow then
                  a ++ [⟨normalizeKey kv.1,
                        [clusterName, goStringAssert (jLookup ent "name")],
                        valueToFloat64 kv.2⟩]
                else a)
              acc
          | _ => acc
        | _ => acc)
      []
  | _ => []

/-- `ClusterExporter.updateMetrics`: the response itself is the single
entity; iterate its top-level fields and, for each field whose value
is itself an object, that object's immediate fields (one extra level,
keys not prefixed); labels are `(cluster)` only. -/
def clusterUpdateMetrics (clusterName : String) (allow : List String)
    (data : List (String × Json)) : List Sample :=
  data.foldl
    (fun acc kv =>
      let acc1 :=
        if normalizeKey kv.1 ∈ allow then
          acc ++ [⟨normalizeKey kv.1, [clusterName], valueToFloat64 kv.2⟩]
        else acc
      match kv.2 with
      | .obj stats =>
        stats.foldl
          (fun a kv2 =>
            if normalizeKey kv2.1 ∈ allow then
              a ++ [⟨normalizeKey kv2.1, [clusterName], valueToFloat64 kv2.2⟩]
            else a)
          acc1
      | _ => acc1)
    []

/-- `HostsExporter.updateMetrics`: over `entities`, for each object
entry take its `name` (zero value on failure), iterate its top-level
fields and one extra nesting level (like the cluster variant), with
labels `(cluster, host)`. -/
def hostsUpdateMetrics (clusterName : String) (allow : List String)
    (data : List (String × Json)) : List Sample :=
  match jLookup data "entities" with
  | some (.arr entities) =>
    entities.foldl
      (fun acc entity =>
        match entity with
        | .obj ent =>
          ent.foldl
            (fun a kv =>
              let a1 :=
                if normalizeKey kv.1 ∈ allow then
                  a ++ [⟨normalizeKey kv.1,
                        [clusterName, goStringAssert (jLookup ent "name")],
                        valueToFloat64 kv.2⟩]
                else a
              match kv.2 with
              | .obj stats =>
                stats.foldl
                  (fun a2 kv2 =>
                    if normalizeKey kv2.1 ∈ allow then
                      a2 ++ [⟨normalizeKey kv2.1,
                             [clusterName, goStringAssert (jLookup ent "name")],
                             valueToFloat64 kv2.2⟩]
                    else a2)
                  a1
              | _ => a1)
            acc
        | _ => acc)
      []
  | _ => []

/-- `VmExporter.updateMetrics`: over `entities`, for each object entry
take its `name` (zero value on failure) and iterate its top-level
fields only, with labels `(cluster, vm)`. -/
def vmUpdateMetrics (clusterName : String) (allow : List String)
    (data : List (String × Json)) : List Sample :=
  match jLookup data "entities" with
  | some (.arr entities) =>
    entities.foldl
      (fun acc entity =>
        match entity with
        | .obj ent =>
          ent.foldl
            (fun a kv =>
              if normalizeKey kv.1 ∈ allow then
                a ++ [⟨normalizeKey kv.1,
                      [clusterName, goStringAssert (jLookup ent "name")],
                      valueToFloat64 kv.2⟩]
              else a)
            acc
        | _ => acc)
      []
  | _ => []

/-- `Exporter.processEntity` (generic base-exporter path): flatten the
entity fully via `flattenMap`, then write every allow-listed
normalized key; labels are `(cluster)` for the cluster document and
`(cluster, name)` otherwise, the name defaulting to the sentinel
`"unknown"` when the entity lacks a string `name` field. -/
def processEntity (clusterName : String) (allow : List String)
    (ent : List (String × Json)) (isCluster : Bool) : List Sample :=
  (flattenMap "" ent).foldl
    (fun acc kv =>
      if normalizeKey kv.1 ∈ allow then
        acc ++ [⟨normalizeKey kv.1,
              if isCluster then [clusterName]
              else
                match jLookup ent "name" with
                | some (.str n) => [clusterName, n]
                | _ => [clusterName, "unknown"],
              valueToFloat64 kv.2⟩]
      else acc)
    []

/-- `Exporter.processMetadata`: flatten the metadata block fully and
write every allow-listed normalized key with labels
`(cluster, "N/A")`. -/
def processMetadata (clusterName : String) (allow : List String)
    (metadata : List (String × Json)) : List Sample :=
  (flattenMap "" metadata).foldl
    (fun acc kv =>
      if normalizeKey kv.1 ∈ allow then
        acc ++ [⟨normalizeKey kv.1, [clusterName, "N/A"], valueToFloat64 kv.2⟩]
      else acc)
    []

/-- `Exporter.updateMetrics` (generic base-exporter path): process the
`metadata` block when present, then each object in `entities`; a
response with no `entities` list is the cluster document, processed as
a single entity. -/
def genericUpdateMetrics (clusterName : String) (allow : List String)
    (data : List (String × Json)) : List Sample :=
  let metaSamples :=
    match jLookup data "metadata" with
    | some (.obj metadata) => processMetadata clusterName allow metadata
    | _ => []
  match jLookup data "entities" with
  | some (.arr entities) =>
    metaSamples ++
      entities.foldl
        (fun acc entity =>
          match entity with
          | .obj ent => acc ++ processEntity clusterName allow ent false
          | _ => acc)
        []
  | _ => metaSamples ++ processEntity clusterName allow data true

/-! ### Spec-side collector descriptions

These definitions follow the wording of spec sentences (for the
refinement comparisons), not the Go code. -/

/-- The allow-list pass as the spec words it: keep exactly the
normalized keys present in the metric definitions, each yielding one
gauge write under the given labels. -/
def allowSamples (allow : List String) (labels : List String)
    (kvs : List (String × Json)) : List Sample :=
  kvs.filterMap fun kv =>
    if normalizeKey kv.1 ∈ allow then
      some ⟨normalizeKey kv.1, labels, valueToFloat64 kv.2⟩
    else none

/-- The spec's instance-name label: the entity's `name` field,
defaulting to the sentinel `"unknown"` when absent or not a string. -/
def specEntityName (ent : List (String × Json)) : String :=
  match jLookup ent "name" with
  | some (.str n) => n
  | _ => "unknown"

/-- The claimed host/VM collector behaviour, as the spec words it:
each element of `entities` is flattened fully via the Flatten Engine,
matched against the allow-list, and labelled
`(cluster-name, entity-name)` with the sentinel default. -/
def specFlattenedListSamples (clusterName : String) (allow : List String)
    (data : List (String × Json)) : List Sample :=
  match jLookup data "entities" with
  | some (.arr entities) =>
    entities.flatMap fun entity =>
      match entity with
      | .obj ent => allowSamples allow [clusterName, specEntityName ent] (flattenMap "" ent)
      | _ => []
  | _ => []

/-- What the VM collector actually does, stated declaratively (for the
amended claim): top-level keys only, entity-name label defaulting to
the empty string. -/
def vmSamplesSpec (clusterName : String) (allow : List String)
    (data : List (String × Json)) : List Sample :=
  match jLookup data "entities" with
  | some (.arr entities) =>
    entities.flatMap fun entity =>
      match entity with
      | .obj ent =>
        allowSamples allow [clusterName, goStringAssert (jLookup ent "name")] ent
      | _ => []
  | _ => []

/-- One entity field handled the way the cluster and host collectors
actually do it, stated declaratively: the top-level match, then — when
the value is itself an object — that object's immediate keys,
unprefixed. -/
def twoLevelKVSamples (allow : List String) (labels : List String)
    (kv : String × Json) : List Sample :=
  (if normalizeKey kv.1 ∈ allow then
    [⟨normalizeKey kv.1, labels, valueToFloat64 kv.2⟩]
  else []) ++
  (match kv.2 with
   | .obj stats => allowSamples allow labels stats
   | _ => [])

/-- What the host collector actually does, stated declaratively (for
the amended claim): top-level keys plus one unprefixed nesting level,
entity-name label defaulting to the empty string. -/
def hostSamplesSpec (clusterName : String) (allow : List String)
    (data : List (String × Json)) : List Sample :=
  match jLookup data "entities" with
  | some (.arr entities) =>
    entities.flatMap fun entity =>
      match entity with
      | .obj ent =>
        ent.flatMap
          (twoLevelKVSamples allow [clusterName, goStringAssert (jLookup ent "name")])
      | _ => []
  | _ => []

/-- The cluster collector, stated declaratively: the document's own
fields plus one unprefixed nesting level, labelled `(cluster)`. -/
def clusterSamplesSpec (clusterName : String) (allow : List String)
    (data : List (String × Json)) : List Sample :=
  data.flatMap (twoLevelKVSamples allow [clusterName])

/-- The storage-container collector, stated declaratively: only the
immediate fields of each entity's `usage_stats` sub-object, labelled
`(cluster, container)`. -/
def storageSamplesSpec (clusterName : String) (allow : List String)
    (data : List (String × Json)) : List Sample :=
  match jLookup data "entities" with
  | some (.arr entities) =>
    entities.flatMap fun entity =>
      match entity with
      | .obj ent =>
        match jLookup ent "usage_stats" with
        | some (.obj usageStats) =>
          allowSamples allow [clusterName, goStringAssert (jLookup ent "name")] usageStats
        | _ => []
      | _ => []
  | _ => []

/-! ### Lemmas about `upsert`, `mergeInto` and `flattenMap` -/

theorem mem_upsert {kv : String × Json} {m k v} (h : kv ∈ upsert m k v) :
    kv ∈ m ∨ kv = (k, v) := by
  induction m with
  | nil => simp [upsert] at h; simp [h]
  | cons hd tl ih =>
    simp only [upsert] at h
    split at h
    · rcases List.mem_cons.mp h with h1 | h1
      · exact Or.inr h1
      · exact Or.inl (List.mem_cons_of_mem _ h1)
    · rcases List.mem_cons.mp h with h1 | h1
      · exact Or.inl (h1 ▸ List.mem_cons_self _ _)
      · rcases ih h1 with h2 | h2
        · exact Or.inl (List.mem_cons_of_mem _ h2)
        · exact Or.inr h2

theorem mem_mergeInto {kv : String × Json} : ∀ {acc entries}, kv ∈ mergeInto acc entries →
    kv ∈ acc ∨ kv ∈ entries := by
  intro acc entries
  induction entries generalizing acc with
  | nil => intro h; exact Or.inl h
  | cons hd tl ih =>
    intro h
    rcases ih h with h1 | h1
    · rcases mem_upsert h1 with h2 | h2
      · exact Or.inl h2
      · exact Or.inr (by simp [h2])
    · exact Or.inr (List.mem_cons_of_mem _ h1)

theorem flattenAux_no_obj : ∀ (pfx : String) (acc fields : List (String × Json)),
    (∀ kv ∈ acc, isObjB kv.2 = false) →
    ∀ kv ∈ flattenMapAux pfx acc fields, isObjB kv.2 = false := by
  intro pfx acc fields
  induction pfx, acc, fields using flattenMapAux.induct with
  | case1 pfx acc => intro h; simpa [flattenMapAux] using h
  | case2 pfx acc k rest flatKey fields ih1 ih2 ih3 =>
    intro hacc
    rw [flattenMapAux]
    refine ih3 ?_
    intro kv hkv
    rcases mem_mergeInto hkv with h1 | h1
    · exact hacc kv h1
    · exact ih1 (by intro kv h; cases h) kv h1
  | case3 pfx acc k v rest flatKey hne ih =>
    intro hacc
    have hv : isObjB v = false := by
      cases v <;> simp [isObjB]
      exact hne _ rfl
    rw [flattenMapAux]
    · refine ih ?_
      intro kv hkv
      rcases mem_upsert hkv with h1 | h1
      · exact hacc kv h1
      · rw [h1]; exact hv
    · exact hne

theorem mem_keys_upsert {a : String} {m k v} (h : a ∈ (upsert m k v).map Prod.fst) :
    a ∈ m.map Prod.fst ∨ a = k := by
  rcases List.mem_map.mp h with ⟨kv, hkv, rfl⟩
  rcases mem_upsert hkv with h1 | h1
  · exact Or.inl (List.mem_map_of_mem _ h1)
  · exact Or.inr (by rw [h1])

theorem upsert_keys_nodup {m : List (String × Json)} {k v}
    (h : (m.map Prod.fst).Nodup) : ((upsert m k v).map Prod.fst).Nodup := by
  induction m with
  | nil => simp [upsert]
  | cons hd tl ih =>
    obtain ⟨k1, v1⟩ := hd
    simp only [List.map_cons, List.nodup_cons] at h
    simp only [upsert]
    split
    · simp only [List.map_cons, List.nodup_cons]
      next heq => exact ⟨heq ▸ h.1, h.2⟩
    · simp only [List.map_cons, List.nodup_cons]
      refine ⟨?_, ih h.2⟩
      intro hmem
      rcases mem_keys_upsert hmem with h1 | h1
      · exact h.1 h1
      · next hne => exact hne h1

theorem mergeInto_keys_nodup : ∀ {acc entries : List (String × Json)},
    (acc.map Prod.fst).Nodup → ((mergeInto acc entries).map Prod.fst).Nodup := by
  intro acc entries
  induction entries generalizing acc with
  | nil => intro h; exact h
  | cons hd tl ih => intro h; exact ih (upsert_keys_nodup h)

theorem flattenAux_keys_nodup : ∀ (pfx : String) (acc fields : List (String × Json)),
    (acc.map Prod.fst).Nodup → ((flattenMapAux pfx acc fields).map Prod.fst).Nodup := by
  intro pfx acc fields
  induction pfx, acc, fields using flattenMapAux.induct with
  | case1 pfx acc => intro h; simpa [flattenMapAux] using h
  | case2 pfx acc k rest flatKey fields ih1 ih2 ih3 =>
    intro hacc
    rw [flattenMapAux]
    exact ih3 (mergeInto_keys_nodup hacc)
  | case3 pfx acc k v rest flatKey hne ih =>
    intro hacc
    rw [flattenMapAux]
    · exact ih (upsert_keys_nodup hacc)
    · exact hne

theorem upsert_of_not_mem {m : List (String × Json)} {k v}
    (h : k ∉ m.map Prod.fst) : upsert m k v = m ++ [(k, v)] := by
  induction m with
  | nil => simp [upsert]
  | cons hd tl ih =>
    obtain ⟨k1, v1⟩ := hd
    simp only [List.map_cons, List.mem_cons, not_or] at h
    simp only [upsert]
    rw [if_neg (fun he => h.1 he.symm), ih h.2]
    simp

theorem flattenAux_cons_step (pfx : String) (acc : List (String × Json)) (k : String)
    (v : Json) (rest : List (String × Json)) (hv : isObjB v = false) :
    flattenMapAux pfx acc ((k, v) :: rest)
      = flattenMapAux pfx (upsert acc (if pfx = "" then k else pfx ++ "_" ++ k) v) rest := by
  rw [flattenMapAux.eq_def]
  cases v <;> simp_all [isObjB]

theorem flattenAux_flat_id : ∀ (fields acc : List (String × Json)),
    (∀ kv ∈ fields, isObjB kv.2 = false) →
    (fields.map Prod.fst).Nodup →
    (∀ a ∈ fields.map Prod.fst, a ∉ acc.map Prod.fst) →
    flattenMapAux "" acc fields = acc ++ fields := by
  intro fields
  induction fields with
  | nil => intro acc _ _ _; simp [flattenMapAux]
  | cons hd tl ih =>
    intro acc hflat hnd hdisj
    obtain ⟨k, v⟩ := hd
    have hv : isObjB v = false := hflat (k, v) (List.mem_cons_self _ _)
    have hk : k ∉ acc.map Prod.fst := hdisj k (by simp)
    rw [flattenAux_cons_step _ _ _ _ _ hv, if_pos rfl, upsert_of_not_mem hk]
    simp only [List.map_cons, List.nodup_cons] at hnd
    rw [ih (acc ++ [(k, v)])
      (fun kv hkv => hflat kv (List.mem_cons_of_mem _ hkv)) hnd.2 ?_]
    · simp
    · intro a ha
      simp only [List.map_append, List.mem_append, List.map_cons, List.mem_cons] at *
      rintro (h1 | h1)
      · exact hdisj a (Or.inr ha) h1
      · rcases h1 with h1 | h1
        · exact hnd.1 (h1 ▸ ha)
        · cases h1

/-- flatten identity on flat nodup docs -/
theorem flattenMap_flat_id (d : List (String × Json))
    (hflat : ∀ kv ∈ d, isObjB kv.2 = false) (hnd : (d.map Prod.fst).Nodup) :
    flattenMap "" d = d := by
  rw [flattenMap, flattenAux_flat_id d [] hflat hnd (by simp)]
  simp

/-- idempotence -/
theorem flattenMap_idem (d : List (String × Json)) :
    flattenMap "" (flattenMap "" d) = flattenMap "" d := by
  refine flattenMap_flat_id _ ?_ ?_
  · exact flattenAux_no_obj "" [] d (by intro kv h; cases h)
  · exact flattenAux_keys_nodup "" [] d (by simp)


/-! ### Collector fold lemmas -/

theorem foldl_guard_eq (allow : List String) (labels : List String) :
    ∀ (kvs : List (String × Json)) (acc : List Sample),
      kvs.foldl (fun a kv =>
        if normalizeKey kv.1 ∈ allow then
          a ++ [⟨normalizeKey kv.1, labels, valueToFloat64 kv.2⟩]
        else a) acc
      = acc ++ allowSamples allow labels kvs := by
  intro kvs
  induction kvs with
  | nil => intro acc; simp [allowSamples]
  | cons hd tl ih =>
    intro acc
    simp only [List.foldl_cons, allowSamples, List.filterMap_cons]
    split
    · rw [ih]
      simp [allowSamples, List.append_assoc]
    · rw [ih]
      simp [allowSamples]

theorem vm_updateMetrics_eq (c : String) (allow : List String)
    (data : List (String × Json)) :
    vmUpdateMetrics c allow data = vmSamplesSpec c allow data := by
  unfold vmUpdateMetrics vmSamplesSpec
  cases hj : jLookup data "entities" with
  | none => rfl
  | some v =>
    cases v with
    | arr es =>
      clear hj
      simp only []
      suffices h : ∀ (acc : List Sample),
          es.foldl (fun acc entity =>
            match entity with
            | .obj ent =>
              ent.foldl (fun a kv =>
                if normalizeKey kv.1 ∈ allow then
                  a ++ [⟨normalizeKey kv.1, [c, goStringAssert (jLookup ent "name")],
                        valueToFloat64 kv.2⟩]
                else a) acc
            | _ => acc) acc
          = acc ++ es.flatMap (fun entity =>
              match entity with
              | .obj ent => allowSamples allow [c, goStringAssert (jLookup ent "name")] ent
              | _ => []) by
        simpa using h []
      induction es with
      | nil => intro acc; simp
      | cons e tl ih =>
        intro acc
        cases e <;> simp only [List.foldl_cons, List.flatMap_cons] <;>
          first
          | (rw [foldl_guard_eq, ih]; simp [List.append_assoc])
          | (rw [ih]; simp)
    | null => rfl
    | bool b => rfl
    | num q => rfl
    | str s => rfl
    | obj fs => rfl

/-- A fold whose step appends a per-element contribution is the
concatenation of those contributions. -/
theorem foldl_step_append {α : Type} (step : List Sample → α → List Sample)
    (g : α → List Sample) (hstep : ∀ acc x, step acc x = acc ++ g x) :
    ∀ (l : List α) (acc : List Sample), l.foldl step acc = acc ++ l.flatMap g := by
  intro l
  induction l with
  | nil => intro acc; simp
  | cons x xs ih =>
    intro acc
    rw [List.foldl_cons, hstep, ih, List.flatMap_cons, List.append_assoc]

theorem twoLevel_foldl_eq (allow : List String) (labels : List String) :
    ∀ (kvs : List (String × Json)) (acc : List Sample),
      kvs.foldl (fun a kv =>
        let a1 :=
          if normalizeKey kv.1 ∈ allow then
            a ++ [⟨normalizeKey kv.1, labels, valueToFloat64 kv.2⟩]
          else a
        match kv.2 with
        | .obj stats =>
          stats.foldl
            (fun a2 kv2 =>
              if normalizeKey kv2.1 ∈ allow then
                a2 ++ [⟨normalizeKey kv2.1, labels, valueToFloat64 kv2.2⟩]
              else a2)
            a1
        | _ => a1) acc
      = acc ++ kvs.flatMap (twoLevelKVSamples allow labels) := by
  refine foldl_step_append _ _ ?_
  intro acc kv
  obtain ⟨k, v⟩ := kv
  cases v <;> by_cases hg : normalizeKey k ∈ allow <;>
    simp [foldl_guard_eq, twoLevelKVSamples, hg, List.append_assoc]

theorem cluster_updateMetrics_eq (c : String) (allow : List String)
    (data : List (String × Json)) :
    clusterUpdateMetrics c allow data = clusterSamplesSpec c allow data := by
  unfold clusterUpdateMetrics clusterSamplesSpec
  simpa using twoLevel_foldl_eq allow [c] data []

theorem hosts_updateMetrics_eq (c : String) (allow : List String)
    (data : List (String × Json)) :
    hostsUpdateMetrics c allow data = hostSamplesSpec c allow data := by
  unfold hostsUpdateMetrics hostSamplesSpec
  cases hj : jLookup data "entities" with
  | none => rfl
  | some v =>
    cases v with
    | arr es =>
      clear hj
      have h := foldl_step_append
        (fun acc entity =>
          match entity with
          | .obj ent =>
            ent.foldl (fun a kv =>
              let a1 :=
                if normalizeKey kv.1 ∈ allow then
                  a ++ [⟨normalizeKey kv.1, [c, goStringAssert (jLookup ent "name")],
                        valueToFloat64 kv.2⟩]
                else a
              match kv.2 with
              | .obj stats =>
                stats.foldl
                  (fun a2 kv2 =>
                    if normalizeKey kv2.1 ∈ allow then
                      a2 ++ [⟨normalizeKey kv2.1, [c, goStringAssert (jLookup ent "name")],
                            valueToFloat64 kv2.2⟩]
                    else a2)
                  a1
              | _ => a1) acc
          | _ => acc)
        (fun entity =>
          match entity with
          | .obj ent =>
            ent.flatMap
              (twoLevelKVSamples allow [c, goStringAssert (jLookup ent "name")])
          | _ => [])
        (by
          intro acc entity
          cases entity <;> try simp
          case obj ent => simpa using twoLevel_foldl_eq allow _ ent acc)
        es []
      simpa using h
    | null => rfl
    | bool b => rfl
    | num q => rfl
    | str s => rfl
    | obj fs => rfl

theorem storage_updateMetrics_eq (c : String) (allow : List String)
    (data : List (String × Json)) :
    storageUpdateMetrics c allow data = storageSamplesSpec c allow data := by
  unfold storageUpdateMetrics storageSamplesSpec
  cases hj : jLookup data "entities" with
  | none => rfl
  | some v =>
    cases v with
    | arr es =>
      clear hj
      have h := foldl_step_append
        (fun acc entity =>
          match entity with
          | .obj ent =>
            match jLookup ent "usage_stats" with
            | some (.obj usageStats) =>
              usageStats.foldl
                (fun a kv =>
                  if normalizeKey kv.1 ∈ allow then
                    a ++ [⟨normalizeKey kv.1, [c, goStringAssert (jLookup ent "name")],
                          valueToFloat64 kv.2⟩]
                  else a)
                acc
            | _ => acc
          | _ => acc)
        (fun entity =>
          match entity with
          | .obj ent =>
            match jLookup ent "usage_stats" with
            | some (.obj usageStats) =>
              allowSamples allow [c, goStringAssert (jLookup ent "name")] usageStats
            | _ => []
          | _ => [])
        (by
          intro acc entity
          cases entity <;> try simp
          case obj ent =>
            cases hu : jLookup ent "usage_stats" with
            | none => simp
            | some u => cases u <;> simp [foldl_guard_eq])
        es []
      simpa using h
    | null => rfl
    | bool b => rfl
    | num q => rfl
    | str s => rfl
    | obj fs => rfl

theorem processEntity_eq (c : String) (allow : List String)
    (ent : List (String × Json)) (b : Bool) :
    processEntity c allow ent b
      = allowSamples allow
          (if b then [c] else
            match jLookup ent "name" with
            | some (.str n) => [c, n]
            | _ => [c, "unknown"])
          (flattenMap "" ent) := by
  unfold processEntity
  simpa using foldl_guard_eq allow
    (if b then [c] else
      match jLookup ent "name" with
      | some (.str n) => [c, n]
      | _ => [c, "unknown"])
    (flattenMap "" ent) []

theorem processEntity_false_eq (c : String) (allow : List String)
    (ent : List (String × Json)) :
    processEntity c allow ent false
      = allowSamples allow [c, specEntityName ent] (flattenMap "" ent) := by
  rw [processEntity_eq]
  unfold specEntityName
  cases hn : jLookup ent "name" with
  | none => simp
  | some v => cases v <;> simp

theorem processMetadata_eq (c : String) (allow : List String)
    (metadata : List (String × Json)) :
    processMetadata c allow metadata
      = allowSamples allow [c, "N/A"] (flattenMap "" metadata) := by
  unfold processMetadata
  simpa using foldl_guard_eq allow [c, "N/A"] (flattenMap "" metadata) []

theorem mem_allowSamples_metric {s : Sample} {allow labels : List String}
    {kvs : List (String × Json)} (h : s ∈ allowSamples allow labels kvs) :
    s.metric ∈ allow := by
  rcases List.mem_filterMap.mp h with ⟨kv, _, hkv⟩
  by_cases hg : normalizeKey kv.1 ∈ allow
  · rw [if_pos hg] at hkv
    cases hkv
    exact hg
  · rw [if_neg hg] at hkv
    cases hkv

theorem mem_twoLevel_metric {s : Sample} {allow labels : List String}
    {kv : String × Json} (h : s ∈ twoLevelKVSamples allow labels kv) :
    s.metric ∈ allow := by
  unfold twoLevelKVSamples at h
  rcases List.mem_append.mp h with h1 | h1
  · by_cases hg : normalizeKey kv.1 ∈ allow
    · rw [if_pos hg] at h1
      rcases List.mem_singleton.mp h1 with rfl
      exact hg
    · rw [if_neg hg] at h1
      cases h1
  · rcases hv : kv.2 with _ | _ | _ | _ | _ | stats <;> rw [hv] at h1
    case obj => exact mem_allowSamples_metric h1
    all_goals cases h1

theorem mem_generic_metric {s : Sample} {c : String} {allow : List String}
    {data : List (String × Json)} (h : s ∈ genericUpdateMetrics c allow data) :
    s.metric ∈ allow := by
  unfold genericUpdateMetrics at h
  simp only [] at h
  have hmeta : ∀ {t : Sample},
      t ∈ (match jLookup data "metadata" with
           | some (.obj metadata) => processMetadata c allow metadata
           | _ => ([] : List Sample)) → t.metric ∈ allow := by
    intro t ht
    split at ht
    · rw [processMetadata_eq] at ht
      exact mem_allowSamples_metric ht
    · cases ht
  split at h
  · next es heq =>
    rcases List.mem_append.mp h with h1 | h1
    · exact hmeta h1
    · rw [foldl_step_append
        (fun acc entity =>
          match entity with
          | .obj ent => acc ++ processEntity c allow ent false
          | _ => acc)
        (fun entity =>
          match entity with
          | .obj ent => processEntity c allow ent false
          | _ => [])
        (by intro acc entity; cases entity <;> simp) es []] at h1
      simp only [List.nil_append] at h1
      rcases List.mem_flatMap.mp h1 with ⟨e, he, hs⟩
      rcases e with _ | _ | _ | _ | _ | fs <;> simp only [] at hs
      case obj =>
        rw [processEntity_eq] at hs
        exact mem_allowSamples_metric hs
      all_goals cases hs
  · rcases List.mem_append.mp h with h1 | h1
    · exact hmeta h1
    · rw [processEntity_eq] at h1
      exact mem_allowSamples_metric h1

/-! ### Discovery and route-table lemmas -/

theorem parseV4Entry_keep_not_unnamed {e : Json} {n ip : String}
    (h : parseV4Entry e = .keep n ip) : n ≠ "Unnamed" := by
  unfold parseV4Entry at h
  split at h <;> try exact absurd h (by simp)
  next =>
    split at h <;> try exact absurd h (by simp)
    next =>
      split at h
      · exact absurd h (by simp)
      · next hne =>
        split at h <;> try exact absurd h (by simp)
        next =>
          split at h <;> try exact absurd h (by simp)
          next =>
            split at h <;> try exact absurd h (by simp)
            next =>
              split at h
              · cases h; exact hne
              · exact absurd h (by simp)

theorem parseV3Entry_keep_not_unnamed {e : Json} {n ip : String}
    (h : parseV3Entry e = .keep n ip) : n ≠ "Unnamed" := by
  unfold parseV3Entry at h
  split at h <;> try exact absurd h (by simp)
  next =>
    split at h <;> try exact absurd h (by simp)
    next =>
      split at h <;> try exact absurd h (by simp)
      next =>
        split at h
        · exact absurd h (by simp)
        · next hne =>
          split at h <;> try exact absurd h (by simp)
          next =>
            split at h <;> try exact absurd h (by simp)
            next =>
              split at h
              · cases h; exact hne
              · exact absurd h (by simp)

theorem runEntries_prop (P : String → Prop) (step : Json → EntryStep)
    (hstep : ∀ e n ip, step e = .keep n ip → P n) :
    ∀ (entries : List Json) (acc l : List (String × String)),
      (∀ p ∈ acc, P p.1) → runEntries step entries acc = .ok l → ∀ p ∈ l, P p.1 := by
  intro entries
  induction entries with
  | nil =>
    intro acc l hacc h
    unfold runEntries at h
    cases h
    exact hacc
  | cons e tl ih =>
    intro acc l hacc h
    unfold runEntries at h
    split at h
    · next n ip hk =>
      refine ih _ _ ?_ h
      intro p hp
      rcases List.mem_append.mp hp with h1 | h1
      · exact hacc p h1
      · rcases List.mem_singleton.mp h1 with rfl
        exact hstep e n ip hk
    · exact ih _ _ hacc h
    · cases h

theorem mem_upsertS {p : String × String} {m : List (String × String)} {k v : String}
    (h : p ∈ upsertS m k v) : p ∈ m ∨ p = (k, v) := by
  induction m with
  | nil => simp [upsertS] at h; simp [h]
  | cons hd tl ih =>
    simp only [upsertS] at h
    split at h
    · rcases List.mem_cons.mp h with h1 | h1
      · exact Or.inr h1
      · exact Or.inl (List.mem_cons_of_mem _ h1)
    · rcases List.mem_cons.mp h with h1 | h1
      · exact Or.inl (h1 ▸ List.mem_cons_self _ _)
      · rcases ih h1 with h2 | h2
        · exact Or.inl (List.mem_cons_of_mem _ h2)
        · exact Or.inr h2

theorem buildClusterData_mem :
    ∀ (clusters : List (String × String)) (clusterPfx : String)
      (acc : List (String × String)) (p : String × String),
      p ∈ clusters.foldl
        (fun acc c =>
          if clusterPfx ≠ "" ∧ ¬ c.1.startsWith clusterPfx then acc
          else upsertS acc c.1 ("https://" ++ c.2 ++ ":9440")) acc →
      p ∈ acc ∨ ((clusterPfx = "" ∨ p.1.startsWith clusterPfx) ∧
        ∃ ip, (p.1, ip) ∈ clusters ∧ p.2 = "https://" ++ ip ++ ":9440") := by
  intro clusters
  induction clusters with
  | nil => intro pfx acc p h; exact Or.inl h
  | cons c tl ih =>
    intro pfx acc p h
    simp only [List.foldl_cons] at h
    rcases ih pfx _ p h with h1 | h1
    · by_cases hc : pfx ≠ "" ∧ ¬ c.1.startsWith pfx
      · rw [if_pos hc] at h1
        exact Or.inl h1
      · rw [if_neg hc] at h1
        rcases mem_upsertS h1 with h2 | h2
        · exact Or.inl h2
        · refine Or.inr ⟨?_, c.2, ?_, ?_⟩
          · rcases not_and_or.mp hc with h3 | h3
            · exact Or.inl (not_not.mp h3)
            · rw [h2]; exact Or.inr (not_not.mp h3)
          · rw [h2]; exact List.mem_cons_self _ _
          · rw [h2]
    · rcases h1 with ⟨hpre, ip, hmem, hurl⟩
      exact Or.inr ⟨hpre, ip, List.mem_cons_of_mem _ hmem, hurl⟩

theorem routeLookup_append_of_some {t : List (String × Nat)} {r : String} {h : Nat}
    (hl : routeLookup t r = some h) (l : List (String × Nat)) :
    routeLookup (t ++ l) r = some h := by
  induction t with
  | nil => cases hl
  | cons hd tl ih =>
    simp only [routeLookup, List.cons_append] at hl ⊢
    split at hl
    · next he => rw [if_pos he]; exact hl
    · next he => rw [if_neg he]; exact ih hl

theorem routeLookup_append_self {t : List (String × Nat)} {r : String}
    (hl : routeLookup t r = none) (h : Nat) :
    routeLookup (t ++ [(r, h)]) r = some h := by
  induction t with
  | nil => simp [routeLookup]
  | cons hd tl ih =>
    simp only [routeLookup, List.cons_append] at hl ⊢
    split at hl
    · cases hl
    · next he => rw [if_neg he]; exact ih hl

theorem updateHTTPHandlers_preserves :
    ∀ (m : List (String × Nat)) (t : List (String × Nat)) (r : String) (h : Nat),
      routeLookup t r = some h → routeLookup (updateHTTPHandlers t m) r = some h := by
  intro m
  induction m with
  | nil => intro t r h hl; exact hl
  | cons c tl ih =>
    intro t r h hl
    unfold updateHTTPHandlers at ih ⊢
    simp only [List.foldl_cons]
    cases hc : routeLookup t (routeOf c.1) with
    | some h2 => simp only [hc]; exact ih t r h hl
    | none => simp only [hc]; exact ih _ r h (routeLookup_append_of_some hl _)

theorem updateHTTPHandlers_registers :
    ∀ (m : List (String × Nat)) (t : List (String × Nat)) (c : String × Nat),
      c ∈ m → ∃ h, routeLookup (updateHTTPHandlers t m) (routeOf c.1) = some h := by
  intro m
  induction m with
  | nil => intro t c hc; cases hc
  | cons c0 tl ih =>
    intro t c hc
    unfold updateHTTPHandlers at ih ⊢
    simp only [List.foldl_cons]
    rcases List.mem_cons.mp hc with rfl | hc2
    · cases hc0 : routeLookup t (routeOf c.1) with
      | some h0 =>
        simp only [hc0]
        exact ⟨h0, updateHTTPHandlers_preserves tl t _ h0 hc0⟩
      | none =>
        simp only [hc0]
        exact ⟨c.2, updateHTTPHandlers_preserves tl _ _ c.2 (routeLookup_append_self hc0 c.2)⟩
    · cases hc0 : routeLookup t (routeOf c0.1) with
      | some h0 => simp only [hc0]; exact ih t c hc2
      | none => simp only [hc0]; exact ih _ c hc2

theorem updateHTTPHandlers_of_all_registered :
    ∀ (m : List (String × Nat)) (t : List (String × Nat)),
      (∀ c ∈ m, ∃ h, routeLookup t (routeOf c.1) = some h) →
      updateHTTPHandlers t m = t := by
  intro m
  induction m with
  | nil => intro t _; rfl
  | cons c0 tl ih =>
    intro t hall
    unfold updateHTTPHandlers at ih ⊢
    simp only [List.foldl_cons]
    obtain ⟨h0, hh0⟩ := hall c0 (List.mem_cons_self _ _)
    simp only [hh0]
    exact ih t (fun c hc => hall c (List.mem_cons_of_mem _ hc))

/-! ### The checked claims -/

/-- C1: the spec says a malformed or partially-shaped discovery entry
is always skipped and never aborts the whole call.  The code violates
this: an entry that is not a mapping, a v4 entry whose `network` or
`ipv4` field is missing, and a v3 entry whose `resources` field is
missing all hit single-value type assertions and panic, aborting the
whole parse (the first three conjuncts evaluate such inputs to
`panicked`, losing even the well-formed sibling entry).  Only the
shapes guarded by two-value assertions — such as a missing
`externalAddress` or a missing `value`/`external_ip` leaf — are
skipped as the spec describes (last conjunct). -/
theorem c1_malformed_entry_panics :
    parseV4Clusters
      [("data", Json.arr [Json.str "bogus",
        Json.obj [("name", Json.str "Prod-01"),
          ("network", Json.obj [("externalAddress",
            Json.obj [("ipv4", Json.obj [("value", Json.str "10.0.0.2")])])])]])]
      = .panicked
  ∧ parseV4Clusters
      [("data", Json.arr [Json.obj [("name", Json.str "NoNet")]])]
      = .panicked
  ∧ parseV3Clusters
      [("entities", Json.arr [Json.obj [
          ("spec", Json.obj [("name", Json.str "Prod-01")]),
          ("status", Json.obj [])]])]
      = .panicked
  ∧ parseV4Clusters
      [("data", Json.arr [
        Json.obj [("name", Json.str "NoLeaf"),
          ("network", Json.obj [("externalAddress",
            Json.obj [("ipv4", Json.obj [])])])],
        Json.obj [("name", Json.str "NoExt"),
          ("network", Json.obj [])],
        Json.obj [("name", Json.str "Prod-01"),
          ("network", Json.obj [("externalAddress",
            Json.obj [("ipv4", Json.obj [("value", Json.str "10.0.0.2")])])])]])]
      = .ok [("Prod-01", "10.0.0.2")] :=
  ⟨by decide, by decide, by decide, by decide⟩

/-- C2 counterexample: the claim says the host and VM collectors
flatten each entity fully via the Flatten Engine (so an allow-listed
`stats_cpu` key nested one level down must produce a sample carrying
the sentinel instance name).  On this document the actual collectors
produce no samples at all, while the claimed flatten-based behaviour
produces one. -/
theorem c2_counterexample :
    vmUpdateMetrics "C" ["stats_cpu"]
      [("entities", Json.arr [Json.obj [("stats", Json.obj [("cpu", Json.num 5)])]])] = []
  ∧ hostsUpdateMetrics "C" ["stats_cpu"]
      [("entities", Json.arr [Json.obj [("stats", Json.obj [("cpu", Json.num 5)])]])] = []
  ∧ specFlattenedListSamples "C" ["stats_cpu"]
      [("entities", Json.arr [Json.obj [("stats", Json.obj [("cpu", Json.num 5)])]])]
      = [⟨"stats_cpu", ["C", "unknown"], 5⟩]
  ∧ vmUpdateMetrics "C" ["stats_cpu"]
      [("entities", Json.arr [Json.obj [("stats", Json.obj [("cpu", Json.num 5)])]])]
      ≠ specFlattenedListSamples "C" ["stats_cpu"]
      [("entities", Json.arr [Json.obj [("stats", Json.obj [("cpu", Json.num 5)])]])] := by
  have h3 : specFlattenedListSamples "C" ["stats_cpu"]
      [("entities", Json.arr [Json.obj [("stats", Json.obj [("cpu", Json.num 5)])]])]
      = [⟨"stats_cpu", ["C", "unknown"], 5⟩] := by
    simp [specFlattenedListSamples, jLookup, flattenMap, flattenMapAux, mergeInto, upsert,
      allowSamples, specEntityName, normalizeKey, valueToFloat64]
  have h1 : vmUpdateMetrics "C" ["stats_cpu"]
      [("entities", Json.arr [Json.obj [("stats", Json.obj [("cpu", Json.num 5)])]])]
      = [] := by decide
  refine ⟨h1, by decide, h3, ?_⟩
  rw [h1, h3]
  simp

/-- C2 amended: the host collector matches each entity's top-level
keys plus the immediate keys of any object-valued field (unprefixed),
the VM collector matches top-level keys only; neither uses the Flatten
Engine; matched keys are labelled `(cluster-name, entity-name)` where
the entity name defaults to the empty string (not a sentinel) when the
entity lacks a string `name` field. -/
theorem c2_hosts_vm_shallow :
    (∀ (c : String) (allow : List String) (data : List (String × Json)),
      hostsUpdateMetrics c allow data = hostSamplesSpec c allow data ∧
      vmUpdateMetrics c allow data = vmSamplesSpec c allow data) ∧
    (∀ v : Option Json, (∀ s, v ≠ some (.str s)) → goStringAssert v = "") := by
  refine ⟨fun c allow data =>
    ⟨hosts_updateMetrics_eq c allow data, vm_updateMetrics_eq c allow data⟩, ?_⟩
  intro v hv
  cases v with
  | none => rfl
  | some j => cases j <;> first | rfl | exact absurd rfl (hv _)

/-- C2 witness. -/
theorem c2_hosts_vm_shallow_witness : goStringAssert none = "" :=
  c2_hosts_vm_shallow.2 none (by intro s h; cases h)

/-- C3: `fetchData` staleness transitions.  A set refresh-needed flag
fails fast with the known-stale error and issues no request (the
outcome is independent of the would-be response); a 401/403 marks the
flag through the locked guarded section and returns the
authentication-specific error; the guarded section flips the flag only
when it is not already set, so of two observers the second never flips
it; and the authentication error is a different constructor from the
generic non-2xx failure, which leaves the flag clear. -/
theorem c3_fetchData_staleness :
    (∀ resp, fetchData true resp =
      { flagAfter := true, requested := false, result := .error .knownStale }) ∧
    (∀ r : HttpResp, r.status = 403 ∨ r.status = 401 →
      fetchData false (.ok r) =
        { flagAfter := true, requested := true, result := .error .authFailed }) ∧
    (∀ flag, markStale flag = (true, !flag)) ∧
    ((markStale false).2 = true ∧ (markStale (markStale false).1).2 = false) ∧
    (∀ st : Nat, FetchErr.authFailed ≠ FetchErr.requestFailed st) ∧
    (∀ r : HttpResp, ¬ (r.status = 403 ∨ r.status = 401) →
      r.status < 200 ∨ 300 ≤ r.status →
      fetchData false (.ok r) =
        { flagAfter := false, requested := true, result := .error (.requestFailed r.status) }) := by
  refine ⟨?_, ?_, ?_, ?_, ?_, ?_⟩
  · intro resp; rfl
  · intro r h
    rcases h with h | h <;> simp [fetchData, markStale, h]
  · intro flag; cases flag <;> rfl
  · exact ⟨rfl, rfl⟩
  · intro st h; cases h
  · intro r h1 h2
    unfold fetchData
    simp only []
    rw [if_neg h1, if_pos h2]
    simp

/-- C3 witness. -/
theorem c3_fetchData_staleness_witness :
    fetchData false (.ok ⟨401, none⟩) =
      { flagAfter := true, requested := true, result := .error .authFailed } :=
  c3_fetchData_staleness.2.1 ⟨401, none⟩ (Or.inr rfl)

/-- C4: `RefreshCredentialsIfNeeded` with the flag set clears it if
and only if the client refresh succeeds; on failure the flag and the
client (including its credential pair) are unchanged.  For both client
variants an empty username or secret from the provider is exactly such
a failure.  With the flag clear nothing happens. -/
theorem c4_refresh_clears_iff_success :
    (∀ (refreshFn : Client → Except Unit Client) (c : Client),
      ((RefreshCredentialsIfNeeded refreshFn true c).1 = false ↔ ∃ c', refreshFn c = .ok c') ∧
      (∀ e, refreshFn c = .error e → RefreshCredentialsIfNeeded refreshFn true c = (true, c)) ∧
      (∀ c', refreshFn c = .ok c' → RefreshCredentialsIfNeeded refreshFn true c = (false, c')) ∧
      RefreshCredentialsIfNeeded refreshFn false c = (false, c)) ∧
    (∀ (g : String → String × String) (c : Client),
      (g c.URL).1 = "" ∨ (g c.URL).2 = "" →
      refreshPE g c = .error () ∧
      RefreshCredentialsIfNeeded (refreshPE g) true c = (true, c) ∧
      refreshPC g c = .error () ∧
      RefreshCredentialsIfNeeded (refreshPC g) true c = (true, c)) := by
  constructor
  · intro refreshFn c
    refine ⟨?_, ?_, ?_, rfl⟩
    · cases hf : refreshFn c <;> simp [RefreshCredentialsIfNeeded, hf]
    · intro e hf; simp [RefreshCredentialsIfNeeded, hf]
    · intro c' hf; simp [RefreshCredentialsIfNeeded, hf]
  · intro g c h
    have hpe : refreshPE g c = .error () := by
      unfold refreshPE
      rcases hgc : g c.URL with ⟨u, p⟩
      rw [hgc] at h
      simp only []
      rw [if_pos h]
    have hpc : refreshPC g c = .error () := by
      unfold refreshPC
      rcases hgc : g c.URL with ⟨u, p⟩
      rw [hgc] at h
      simp only []
      rw [if_pos h]
    exact ⟨hpe, by simp [RefreshCredentialsIfNeeded, hpe],
      hpc, by simp [RefreshCredentialsIfNeeded, hpc]⟩

/-- C4 witness. -/
theorem c4_refresh_clears_iff_success_witness :
    refreshPE (fun _ => ("", "x")) ⟨"u", "a", "b"⟩ = .error () ∧
    RefreshCredentialsIfNeeded (refreshPE (fun _ => ("", "x"))) true ⟨"u", "a", "b"⟩
      = (true, ⟨"u", "a", "b"⟩) ∧
    refreshPC (fun _ => ("", "x")) ⟨"u", "a", "b"⟩ = .error () ∧
    RefreshCredentialsIfNeeded (refreshPC (fun _ => ("", "x"))) true ⟨"u", "a", "b"⟩
      = (true, ⟨"u", "a", "b"⟩) :=
  c4_refresh_clears_iff_success.2 (fun _ => ("", "x")) ⟨"u", "a", "b"⟩ (Or.inl rfl)

/-- C5: allow-list enforcement for every collector variant — every
gauge write any `updateMetrics` variant performs carries a metric name
that is a key of the collector's `Metrics` map, so a flattened and
normalized key absent from the loaded metric definitions never creates
or sets a gauge, and the gauge-name set is fixed by the definitions. -/
theorem c5_allow_list_enforced :
    ∀ (c : String) (allow : List String) (data : List (String × Json)) (s : Sample),
      (s ∈ storageUpdateMetrics c allow data → s.metric ∈ allow) ∧
      (s ∈ clusterUpdateMetrics c allow data → s.metric ∈ allow) ∧
      (s ∈ hostsUpdateMetrics c allow data → s.metric ∈ allow) ∧
      (s ∈ vmUpdateMetrics c allow data → s.metric ∈ allow) ∧
      (s ∈ genericUpdateMetrics c allow data → s.metric ∈ allow) := by
  intro c allow data s
  refine ⟨?_, ?_, ?_, ?_, fun h => mem_generic_metric h⟩
  · intro h
    rw [storage_updateMetrics_eq] at h
    unfold storageSamplesSpec at h
    split at h
    · rcases List.mem_flatMap.mp h with ⟨e, he, hs⟩
      rcases e with _ | _ | _ | _ | _ | fs <;> simp only [] at hs
      case obj =>
        split at hs
        · exact mem_allowSamples_metric hs
        · cases hs
      all_goals cases hs
    · cases h
  · intro h
    rw [cluster_updateMetrics_eq] at h
    unfold clusterSamplesSpec at h
    rcases List.mem_flatMap.mp h with ⟨kv, _, hs⟩
    exact mem_twoLevel_metric hs
  · intro h
    rw [hosts_updateMetrics_eq] at h
    unfold hostSamplesSpec at h
    split at h
    · rcases List.mem_flatMap.mp h with ⟨e, he, hs⟩
      rcases e with _ | _ | _ | _ | _ | fs <;> simp only [] at hs
      case obj =>
        rcases List.mem_flatMap.mp hs with ⟨kv, _, hs2⟩
        exact mem_twoLevel_metric hs2
      all_goals cases hs
    · cases h
  · intro h
    rw [vm_updateMetrics_eq] at h
    unfold vmSamplesSpec at h
    split at h
    · rcases List.mem_flatMap.mp h with ⟨e, he, hs⟩
      rcases e with _ | _ | _ | _ | _ | fs <;> simp only [] at hs
      case obj => exact mem_allowSamples_metric hs
      all_goals cases hs
    · cases h

/-- C5 witness. -/
theorem c5_allow_list_enforced_witness : (⟨"a", ["C", ""], 3⟩ : Sample).metric ∈ ["a"] :=
  (c5_allow_list_enforced "C" ["a"]
    [("entities", Json.arr [Json.obj [("a", Json.num 3)]])]
    ⟨"a", ["C", ""], 3⟩).2.2.2.1 (by decide)

/-- C6 counterexample: the version-independent post-processing loop of
`FetchClusters` does not discard a parsed entry named `"Unnamed"` — it
binds it like any other name (the `"Unnamed"` filter lives in the
per-version parsers instead). -/
theorem c6_counterexample :
    buildClusterData [("Unnamed", "10.0.0.1")] ""
      = [("Unnamed", "https://10.0.0.1:9440")] := by decide

/-- C6 amended: each per-version parser (not the shared
post-processing) discards every entry named exactly `"Unnamed"`; the
shared post-processing keeps only names passing the prefix filter and
maps each kept `(name, ip)` to `https://{ip}:9440`; composed, the v4
sample payload with an `"Unnamed"` cluster at X and `"Prod-01"` at Y
and no prefix filter yields exactly the single binding
`Prod-01 -> https://Y:9440`. -/
theorem c6_discovery_postprocessing :
    (∀ (result : List (String × Json)) (l : List (String × String)),
      parseV4Clusters result = .ok l → ∀ p ∈ l, p.1 ≠ "Unnamed") ∧
    (∀ (result : List (String × Json)) (l : List (String × String)),
      parseV3Clusters result = .ok l → ∀ p ∈ l, p.1 ≠ "Unnamed") ∧
    (∀ (clusters : List (String × String)) (clusterPfx : String) (p : String × String),
      p ∈ buildClusterData clusters clusterPfx →
        (clusterPfx = "" ∨ p.1.startsWith clusterPfx) ∧
        ∃ ip, (p.1, ip) ∈ clusters ∧ p.2 = "https://" ++ ip ++ ":9440") ∧
    fetchClustersCore "v4"
      [("data", Json.arr [
        Json.obj [("name", Json.str "Unnamed"),
          ("network", Json.obj [("externalAddress",
            Json.obj [("ipv4", Json.obj [("value", Json.str "10.0.0.1")])])])],
        Json.obj [("name", Json.str "Prod-01"),
          ("network", Json.obj [("externalAddress",
            Json.obj [("ipv4", Json.obj [("value", Json.str "10.0.0.2")])])])]])] ""
      = .ok [("Prod-01", "https://10.0.0.2:9440")] := by
  refine ⟨?_, ?_, ?_, by decide⟩
  · intro result l hp p hpl
    unfold parseV4Clusters at hp
    split at hp
    · exact runEntries_prop (fun n => n ≠ "Unnamed") parseV4Entry
        (fun e n ip hk => parseV4Entry_keep_not_unnamed hk) _ [] l
        (by intro q hq; cases hq) hp p hpl
    · cases hp
  · intro result l hp p hpl
    unfold parseV3Clusters at hp
    split at hp
    · exact runEntries_prop (fun n => n ≠ "Unnamed") parseV3Entry
        (fun e n ip hk => parseV3Entry_keep_not_unnamed hk) _ [] l
        (by intro q hq; cases hq) hp p hpl
    · cases hp
  · intro clusters clusterPfx p hp
    unfold buildClusterData at hp
    rcases buildClusterData_mem clusters clusterPfx [] p hp with h1 | h1
    · cases h1
    · exact h1

/-- C6 witness. -/
theorem c6_discovery_postprocessing_witness :
    (("" : String) = "" ∨ ("A", "https://1.2.3.4:9440").1.startsWith "") ∧
    ∃ ip, (("A", "https://1.2.3.4:9440").1, ip) ∈ [("A", "1.2.3.4")] ∧
      ("A", "https://1.2.3.4:9440").2 = "https://" ++ ip ++ ":9440" :=
  c6_discovery_postprocessing.2.2.1 [("A", "1.2.3.4")] "" ("A", "https://1.2.3.4:9440")
    (by decide)

/-- C7: `flattenMap("", d)` never contains an object (mapping) value;
on a document that is already flat (no object values; unique keys, as
any decoded Go map has) it is the identity; and it is idempotent on
every document. -/
theorem c7_flatten_flat_idempotent :
    (∀ d : List (String × Json), ∀ kv ∈ flattenMap "" d, isObjB kv.2 = false) ∧
    (∀ d : List (String × Json),
      (∀ kv ∈ d, isObjB kv.2 = false) → (d.map Prod.fst).Nodup →
      flattenMap "" d = d) ∧
    (∀ d : List (String × Json), flattenMap "" (flattenMap "" d) = flattenMap "" d) :=
  ⟨fun d => flattenAux_no_obj "" [] d (by intro kv h; cases h),
   fun d hf hn => flattenMap_flat_id d hf hn,
   flattenMap_idem⟩

/-- C7 witness. -/
theorem c7_flatten_flat_idempotent_witness :
    flattenMap "" [("a", Json.num 1), ("b", Json.str "x")]
      = [("a", Json.num 1), ("b", Json.str "x")] :=
  c7_flatten_flat_idempotent.2.1 [("a", Json.num 1), ("b", Json.str "x")]
    (by decide) (by decide)

/-- C8: `valueToFloat64` is total and never fails its caller: numbers
pass through unchanged, `"on"` is 1, every letter casing of `"off"` is
0 (in both revisions of the function), `"3.5"` is 3.5, `"garbage"` is
0; any string whose decimal parse succeeds yields the parsed value, a
failed parse (other than the special `"on"` case) yields 0, and the
two source revisions agree on every input. -/
theorem c8_valueToFloat64_coercion :
    (∀ q : ℚ, valueToFloat64 (.num q) = q) ∧
    valueToFloat64 (.str "on") = 1 ∧
    (∀ s ∈ ["off", "ofF", "oFf", "oFF", "Off", "OfF", "OFf", "OFF"],
      valueToFloat64 (.str s) = 0 ∧ valueToFloat64V0 (.str s) = 0) ∧
    valueToFloat64 (.str "3.5") = 7 / 2 ∧
    valueToFloat64 (.str "garbage") = 0 ∧
    (∀ (s : String) (q : ℚ), parseDecimal s = some q → valueToFloat64 (.str s) = q) ∧
    (∀ s : String, s ≠ "on" → parseDecimal s = none → valueToFloat64 (.str s) = 0) ∧
    (∀ j : Json, valueToFloat64 j = valueToFloat64V0 j) := by
  refine ⟨fun q => rfl, rfl, ?_, ?_, by decide, ?_, ?_, ?_⟩
  · intro s hs
    fin_cases hs <;> exact ⟨by decide, by decide⟩
  · have h : valueToFloat64 (.str "3.5")
        = (1 : ℚ) * (((3 : ℕ) : ℚ) + ((5 : ℕ) : ℚ) / ((10 : ℚ) ^ (1 : ℕ))) := rfl
    rw [h]; norm_num
  · intro s q hp
    by_cases h1 : s = "on"
    · rw [h1] at hp
      rw [show parseDecimal "on" = none from by decide] at hp
      cases hp
    by_cases h2 : s = "off"
    · rw [h2] at hp
      rw [show parseDecimal "off" = none from by decide] at hp
      cases hp
    by_cases h3 : s = "OFF"
    · rw [h3] at hp
      rw [show parseDecimal "OFF" = none from by decide] at hp
      cases hp
    simp [valueToFloat64, h1, h2, h3, hp]
  · intro s h1 hp
    by_cases h2 : s = "off"
    · simp [valueToFloat64, h2]
    by_cases h3 : s = "OFF"
    · simp [valueToFloat64, h3]
    simp [valueToFloat64, h1, h2, h3, hp]
  · intro j
    cases j with
    | str v =>
      by_cases h3 : v = "OFF"
      · rw [h3]
        rw [show valueToFloat64 (.str "OFF") = 0 from rfl]
        rw [show valueToFloat64V0 (.str "OFF") = 0 from by
          simp [valueToFloat64V0, show parseDecimal "OFF" = none from by decide]]
      · by_cases h1 : v = "on"
        · rw [h1]; rfl
        · by_cases h2 : v = "off"
          · rw [h2]; rfl
          · simp [valueToFloat64, valueToFloat64V0, h1, h2, h3]
    | null => rfl
    | bool b => rfl
    | num q => rfl
    | arr xs => rfl
    | obj fs => rfl

/-- C8 witness. -/
theorem c8_valueToFloat64_coercion_witness :
    (valueToFloat64 (.str "oFF") = 0 ∧ valueToFloat64V0 (.str "oFF") = 0) ∧
    valueToFloat64 (.str "5")
      = (1 : ℚ) * (((5 : ℕ) : ℚ) + ((0 : ℕ) : ℚ) / ((10 : ℚ) ^ (0 : ℕ))) ∧
    valueToFloat64 (.str "x1") = 0 :=
  ⟨c8_valueToFloat64_coercion.2.2.1 "oFF" (by decide),
   c8_valueToFloat64_coercion.2.2.2.2.2.1 "5" _ rfl,
   c8_valueToFloat64_coercion.2.2.2.2.2.2.1 "x1" (by decide) (by decide)⟩

/-- C9: the route table only grows — a route already registered keeps
exactly its old handler through any later `updateHTTPHandlers` cycle —
every cluster in the argument map ends up registered, and running the
same cluster map twice leaves the table identical to running it
once. -/
theorem c9_route_registration_idempotent :
    (∀ (t m : List (String × Nat)) (r : String) (h : Nat),
      routeLookup t r = some h → routeLookup (updateHTTPHandlers t m) r = some h) ∧
    (∀ (t m : List (String × Nat)) (c : String × Nat), c ∈ m →
      ∃ h, routeLookup (updateHTTPHandlers t m) (routeOf c.1) = some h) ∧
    (∀ t m : List (String × Nat),
      updateHTTPHandlers (updateHTTPHandlers t m) m = updateHTTPHandlers t m) :=
  ⟨fun t m r h hl => updateHTTPHandlers_preserves m t r h hl,
   fun t m c hc => updateHTTPHandlers_registers m t c hc,
   fun t m => updateHTTPHandlers_of_all_registered m _
     (fun c hc => updateHTTPHandlers_registers m t c hc)⟩

/-- C9 witness. -/
theorem c9_route_registration_idempotent_witness :
    routeLookup (updateHTTPHandlers [("/metrics/a", 7)] [("b", 9)]) "/metrics/a" = some 7 :=
  c9_route_registration_idempotent.1 [("/metrics/a", 7)] [("b", 9)] "/metrics/a" 7 (by decide)

/-- C10: construction fetches the credential pair keyed by the
cluster's name while refresh fetches it keyed by the client's URL; so
whenever the name differs from the URL, a refresh reads a different
provider entry than construction did — exhibited by a provider whose
two entries differ. -/
theorem c10_creds_keyed_name_vs_url :
    (∀ (g : String → String × String) (name url : String) (c : Client),
      NewClusterClient g name url = some c →
        c.URL = url ∧ c.Username = (g name).1 ∧ c.Password = (g name).2 ∧
        (∀ c', refreshPE g c = .ok c' → c'.Username = (g url).1 ∧ c'.Password = (g url).2) ∧
        (∀ c', refreshPC g c = .ok c' → c'.Username = (g url).1 ∧ c'.Password = (g url).2)) ∧
    (∀ name url : String, name ≠ url →
      ∃ (g : String → String × String) (c c' : Client),
        NewClusterClient g name url = some c ∧ refreshPE g c = .ok c' ∧
        (c.Username, c.Password) ≠ (c'.Username, c'.Password)) := by
  constructor
  · intro g name url c hc
    unfold NewClusterClient at hc
    rcases hg : g name with ⟨u, p⟩
    rw [hg] at hc
    simp only [] at hc
    split at hc
    · cases hc
    · cases hc
      refine ⟨rfl, rfl, rfl, ?_, ?_⟩
      · intro c' hc'
        unfold refreshPE at hc'
        rcases hg2 : g url with ⟨u2, p2⟩
        rw [hg2] at hc'
        simp only [] at hc'
        split at hc'
        · cases hc'
        · cases hc'
          exact ⟨rfl, rfl⟩
      · intro c' hc'
        unfold refreshPC at hc'
        rcases hg2 : g url with ⟨u2, p2⟩
        rw [hg2] at hc'
        simp only [] at hc'
        split at hc'
        · cases hc'
        · cases hc'
          exact ⟨rfl, rfl⟩
  · intro name url hne
    refine ⟨fun k => if k = name then ("userA", "passA") else ("userB", "passB"),
      ⟨url, "userA", "passA"⟩, ⟨url, "userB", "passB"⟩, ?_, ?_, by simp⟩
    · simp [NewClusterClient]
    · unfold refreshPE
      simp only []
      rw [if_neg (fun h : url = name => hne h.symm)]
      simp

/-- C10 witness. -/
theorem c10_creds_keyed_name_vs_url_witness :
    ∃ (g : String → String × String) (c c' : Client),
      NewClusterClient g "n" "u" = some c ∧ refreshPE g c = .ok c' ∧
      (c.Username, c.Password) ≠ (c'.Username, c'.Password) :=
  c10_creds_keyed_name_vs_url.2 "n" "u" (by decide)

end NutanixExporter
